import Mathlib

/-!
Verification development for the prediction engine of the
nakshatra-market-analyst repository (`advanced_nakshatra.py`).

The engine is embedded shallowly:
* Python floats are modelled as rationals (`ℚ`).  Every numeric literal of the
  source (`365.25`, `13.3333`, the `0.4/0.3/0.3` weights, the `0.7/0.3/0.15`
  thresholds, ...) is an exact decimal, and all reachable arithmetic of the
  engine stays inside decimal fractions, so the rational model is exact.
* Python's `%` on numbers (floored modulo), `int()` (truncation toward zero)
  and list indexing (negative wrap-around, `IndexError` as `none`) are given
  explicit models `pymod`, `pytrunc`, `pyindex`.
* Python `dict`s keep insertion order; the dynamically grown
  `direction_counts` dictionary of `predict_session_outcome` is modelled as an
  association list built by `bump`, and the builtin `max(..., key=...)`
  (leftmost maximum in iteration order) is modelled by `pymax`.
* Operations that can raise (`ZeroDivisionError` on empty aggregation input,
  `KeyError` on the progress-less fallback dictionary, `IndexError` on list
  indexing) return `Option` / a dedicated outcome constructor.
* Timestamps are modelled as whole minutes (`ℤ`); the origin of the scale is
  the fixed market epoch `datetime(1992, 7, 1, 9, 15)`, so the constant
  `market_birth` is `0` on this scale.  `timedelta.days` is floored division
  by `1440` minutes.
* The external ephemeris (`ephem`) is a black box: the raw right-ascension
  degrees are a function parameter `moonRA : ℤ → ℚ` of the sequence
  generator, exactly as the spec treats `MoonLongitude`.
-/

/-- The nine ruling bodies ("lords") of the engine. -/
inductive Planet where
  | Ketu | Venus | Sun | Moon | Mars | Rahu | Jupiter | Saturn | Mercury
deriving DecidableEq, Repr, Inhabited

/-- The four direction buckets used by the engine. -/
inductive Direction where
  | bullish | bearish | neutral | uncertain
deriving DecidableEq, Repr, Inhabited

/-- Python's `%` for a rational left operand and positive rational modulus:
floored modulo, `a - b * ⌊a / b⌋`.  (`Rat.floor` is used so that the model
evaluates by kernel reduction; it agrees with `Int.floor`.) -/
def pymod (a b : ℚ) : ℚ := a - b * ((a / b).floor : ℚ)

/-- Python's `int()` on a rational: truncation toward zero. -/
def pytrunc (q : ℚ) : ℤ := if q < 0 then -(Rat.floor (-q)) else q.floor

/-- Python list indexing `l[i]`: nonnegative indices from the front, negative
indices wrap from the end, out-of-range raises `IndexError` (modelled as
`none`). -/
def pyindex {α : Type} (l : List α) (i : ℤ) : Option α :=
  if 0 ≤ i then l.get? i.toNat
  else if 0 ≤ (l.length : ℤ) + i then l.get? ((l.length : ℤ) + i).toNat
  else none

/-- One entry of the static segment table (`self.nakshatras`): name, ruling
body and half-open longitude range, kept as the source's `(start, end)` pair. -/
structure Nakshatra where
  name : String
  lord : Planet
  range : ℚ × ℚ
deriving DecidableEq, Repr, Inhabited

/-- The 27-entry static segment table, literal from the source. -/
def nakshatras : List Nakshatra := [
  ⟨"Ashwini", .Ketu, (0, 13.3333)⟩,
  ⟨"Bharani", .Venus, (13.3333, 26.6666)⟩,
  ⟨"Krittika", .Sun, (26.6666, 40.0)⟩,
  ⟨"Rohini", .Moon, (40.0, 53.3333)⟩,
  ⟨"Mrigashira", .Mars, (53.3333, 66.6666)⟩,
  ⟨"Ardra", .Rahu, (66.6666, 80.0)⟩,
  ⟨"Punarvasu", .Jupiter, (80.0, 93.3333)⟩,
  ⟨"Pushya", .Saturn, (93.3333, 106.6666)⟩,
  ⟨"Ashlesha", .Mercury, (106.6666, 120.0)⟩,
  ⟨"Magha", .Ketu, (120.0, 133.3333)⟩,
  ⟨"Purva Phalguni", .Venus, (133.3333, 146.6666)⟩,
  ⟨"Uttara Phalguni", .Sun, (146.6666, 160.0)⟩,
  ⟨"Hasta", .Moon, (160.0, 173.3333)⟩,
  ⟨"Chitra", .Mars, (173.3333, 186.6666)⟩,
  ⟨"Swati", .Rahu, (186.6666, 200.0)⟩,
  ⟨"Vishakha", .Jupiter, (200.0, 213.3333)⟩,
  ⟨"Anuradha", .Saturn, (213.3333, 226.6666)⟩,
  ⟨"Jyeshtha", .Mercury, (226.6666, 240.0)⟩,
  ⟨"Mula", .Ketu, (240.0, 253.3333)⟩,
  ⟨"Purva Ashadha", .Venus, (253.3333, 266.6666)⟩,
  ⟨"Uttara Ashadha", .Sun, (266.6666, 280.0)⟩,
  ⟨"Shravana", .Moon, (280.0, 293.3333)⟩,
  ⟨"Dhanishta", .Mars, (293.3333, 306.6666)⟩,
  ⟨"Shatabhisha", .Rahu, (306.6666, 320.0)⟩,
  ⟨"Purva Bhadrapada", .Jupiter, (320.0, 333.3333)⟩,
  ⟨"Uttara Bhadrapada", .Saturn, (333.3333, 346.6666)⟩,
  ⟨"Revati", .Mercury, (346.6666, 360.0)⟩]

/-- The Vimshottari mahadasha period of each ruler in years
(`self.mahadasha_periods` values). -/
def mahadasha_years : Planet → ℕ
  | .Ketu => 7
  | .Venus => 20
  | .Sun => 6
  | .Moon => 10
  | .Mars => 7
  | .Rahu => 18
  | .Jupiter => 16
  | .Saturn => 19
  | .Mercury => 17

/-- Insertion order of the `self.mahadasha_periods` dictionary; Python dicts
iterate in insertion order, and `list(self.mahadasha_periods.keys())` is this
list. -/
def mahadashaOrder : List Planet :=
  [.Ketu, .Venus, .Sun, .Moon, .Mars, .Rahu, .Jupiter, .Saturn, .Mercury]

/-- One row of the `self.planet_influences` table. -/
structure PlanetInfluence where
  volatility : ℚ
  direction : Direction
  impact : String
deriving DecidableEq, Repr, Inhabited

/-- The static per-ruler influence attribute table (`self.planet_influences`). -/
def planet_influences : Planet → PlanetInfluence
  | .Ketu => ⟨0.8, .uncertain, "sudden_changes"⟩
  | .Venus => ⟨0.3, .bullish, "steady_growth"⟩
  | .Sun => ⟨0.6, .bullish, "leadership_moves"⟩
  | .Moon => ⟨0.5, .neutral, "sentiment_driven"⟩
  | .Mars => ⟨0.9, .bearish, "aggressive_moves"⟩
  | .Rahu => ⟨0.7, .uncertain, "unexpected_trends"⟩
  | .Jupiter => ⟨0.2, .bullish, "expansion_growth"⟩
  | .Saturn => ⟨0.4, .bearish, "correction_consolidation"⟩
  | .Mercury => ⟨0.5, .neutral, "news_driven"⟩

/-- The scan of `get_current_nakshatra`, abstracted over the boolean range
test so that the IEEE behaviour on a NaN longitude (every comparison false)
is also expressible: returns the first table entry whose test succeeds. -/
def findSegment (test : ℚ → ℚ → Bool) : List Nakshatra → Option Nakshatra
  | [] => none
  | n :: rest => if test n.range.1 n.range.2 then some n else findSegment test rest

/-- `get_current_nakshatra`: first segment whose half-open range contains the
longitude, else the defensive fallback `self.nakshatras[0]`. -/
def get_current_nakshatra (moon_longitude : ℚ) : Nakshatra :=
  match findSegment (fun s e => decide (s ≤ moon_longitude ∧ moon_longitude < e)) nakshatras with
  | some n => n
  | none => nakshatras.headI

/-- `years * 365.25`: the span of one major period in days. -/
def planetDays (p : Planet) : ℚ := (mahadasha_years p : ℚ) * 365.25

/-- `sum(self.mahadasha_periods.values()) * 365.25`, the macro-cycle length
in days used as the modulus. -/
def total_mahadasha_days : ℚ :=
  ((mahadashaOrder.map mahadasha_years).sum : ℚ) * 365.25

/-- Successful result of `calculate_dasha_bhukti`: the dictionary returned
from inside the loop, with all four keys. -/
structure DashaInfo where
  mahadasha_lord : Planet
  bhukti_lord : Planet
  mahadasha_progress : ℚ
  bhukti_progress : ℚ
deriving DecidableEq, Repr, Inhabited

/-- Outcome of `calculate_dasha_bhukti`: `full` is the in-loop return;
`fallback` is the final `return {... 'progress': 0.0}` dictionary, which lacks
the two progress keys (so downstream access raises `KeyError`); `indexError`
models `bhukti_planets[bhukti_index]` going out of range. -/
inductive DashaOutcome where
  | full (info : DashaInfo)
  | fallback
  | indexError
deriving DecidableEq, Repr, Inhabited

/-- The `for planet, years in self.mahadasha_periods.items()` loop of
`calculate_dasha_bhukti`, with `current_days` as accumulator. -/
def dashaLoop (elapsed : ℚ) : List Planet → ℚ → DashaOutcome
  | [], _ => .fallback
  | p :: rest, current =>
      let planet_days : ℚ := planetDays p
      if current ≤ elapsed ∧ elapsed < current + planet_days then
        let bhukti_elapsed : ℚ := elapsed - current
        let bhukti_total : ℚ := planet_days / 9
        match pyindex mahadashaOrder (pytrunc (bhukti_elapsed / bhukti_total)) with
        | some b =>
            .full ⟨p, b, (elapsed - current) / planet_days,
                   pymod bhukti_elapsed bhukti_total / bhukti_total⟩
        | none => .indexError
      else dashaLoop elapsed rest (current + planet_days)

/-- `calculate_dasha_bhukti`, as a function of
`total_days = (current_date - birth_date).days` (an integer, floored day
difference, negative when the instant precedes the epoch). -/
def calculate_dasha_bhukti (total_days : ℤ) : DashaOutcome :=
  dashaLoop (pymod (total_days : ℚ) total_mahadasha_days) mahadashaOrder 0

/-- `calculate_combined_score`: weighted volatility blend, multiplied by `1.3`
when all three directions agree, capped at `1.0`. -/
def calculate_combined_score (maha_inf bhukti_inf nakshatra_inf : PlanetInfluence) : ℚ :=
  let base_score :=
    maha_inf.volatility * 0.4 + bhukti_inf.volatility * 0.3 + nakshatra_inf.volatility * 0.3
  let boosted :=
    if maha_inf.direction = bhukti_inf.direction ∧ bhukti_inf.direction = nakshatra_inf.direction
    then base_score * 1.3 else base_score
  min 1 boosted

/-- One per-minute prediction dictionary, with the fields the engine writes. -/
structure Record where
  timestamp : ℤ
  time_str : String
  moon_longitude : ℚ
  current_nakshatra : String
  nakshatra_lord : Planet
  nakshatra_progress : ℚ
  mahadasha_lord : Planet
  bhukti_lord : Planet
  mahadasha_progress : ℚ
  bhukti_progress : ℚ
  predicted_volatility : ℚ
  predicted_direction : Direction
  combined_influence_score : ℚ
  key_events : List String
deriving DecidableEq, Repr, Inhabited

/-- `detect_key_events`: the list of event labels for one instant. -/
def detect_key_events (nakshatra : Nakshatra) (dasha_info : DashaInfo)
    (nakshatra_progress : ℚ) : List String :=
  (if nakshatra_progress > 0.95 then ["Approaching " ++ nakshatra.name ++ " end"] else []) ++
  (if dasha_info.mahadasha_progress > 0.98 then ["Mahadasha change imminent"] else []) ++
  (if dasha_info.bhukti_progress > 0.98 then ["Bhukti change imminent"] else []) ++
  (if dasha_info.mahadasha_lord = .Rahu ∧ dasha_info.bhukti_lord = .Mars
   then ["Rahu-Mars combination - High volatility expected"] else []) ++
  (if nakshatra.lord = .Jupiter ∧ dasha_info.mahadasha_lord = .Jupiter
   then ["Double Jupiter influence - Bullish bias"] else [])

/-- A Python dictionary update `d[k] = d.get(k, 0) + 1` on an
insertion-ordered association list: increment the first entry with this key,
or append a fresh entry at the end. -/
def bump {α : Type} [DecidableEq α] : List (α × ℕ) → α → List (α × ℕ)
  | [], d => [(d, 1)]
  | (k, v) :: rest, d =>
      if k = d then (k, v + 1) :: rest else (k, v) :: bump rest d

/-- Build an insertion-ordered count dictionary from a list of keys
(`direction_counts` / `lord_counts` loops). -/
def tally {α : Type} [DecidableEq α] (ds : List α) : List (α × ℕ) :=
  ds.foldl bump []

/-- Value lookup in a count dictionary (`d.get(k, 0)` / `d[k]` on a present
key): the value of the first entry with this key, `0` when absent. -/
def lookupCount {α : Type} [DecidableEq α] : List (α × ℕ) → α → ℕ
  | [], _ => 0
  | (k, v) :: rest, d => if k = d then v else lookupCount rest d

/-- Python's `max(d, key=d.get)`: the key of the leftmost entry with maximal
value in iteration (= insertion) order; `ValueError` on an empty dictionary is
modelled as `none`. -/
def pymax {α : Type} : List (α × ℕ) → Option (α × ℕ)
  | [] => none
  | kv :: rest =>
      match pymax rest with
      | none => some kv
      | some best => if kv.2 < best.2 then some best else some kv

/-- The fixed-order `direction_weights` dictionary of
`generate_minute_level_predictions`, after the three votes. -/
def direction_weights (a b c : Direction) : List (Direction × ℕ) :=
  [a, b, c].foldl bump
    [(.bullish, 0), (.bearish, 0), (.neutral, 0), (.uncertain, 0)]

/-- The per-minute `predicted_direction`: leftmost maximal bucket of the
fixed-order weights dictionary (the dictionary is never empty, so the
`ValueError` default is unreachable). -/
def predictedDirection (a b c : Direction) : Direction :=
  ((pymax (direction_weights a b c)).map Prod.fst).getD .bullish

/-- `datetime(1992, 7, 1, 9, 15)`, the fixed market epoch
(`market_birth`); the minute scale of this model has its origin there. -/
def market_birth : ℤ := 0

/-- Minutes past midnight of the epoch instant (09:15). -/
def epochMinuteOfDay : ℤ := 9 * 60 + 15

/-- Two-digit zero padding for `strftime`. -/
def pad2 (n : ℕ) : String :=
  if n < 10 then "0" ++ toString n else toString n

/-- `current_time.strftime('%H:%M')` for an instant on the minute scale. -/
def formatHM (t : ℤ) : String :=
  let m : ℕ := (pymod ((epochMinuteOfDay + t : ℤ) : ℚ) 1440).num.toNat
  pad2 (m / 60) ++ ":" ++ pad2 (m % 60)

/-- `calculate_moon_position`: degrees of the ephemeris right ascension,
reduced modulo 360.  `moonRA` is the external black-box ephemeris value in
degrees. -/
def calculate_moon_position (moonRA : ℤ → ℚ) (t : ℤ) : ℚ :=
  pymod (moonRA t) 360

/-- The record built by one iteration of `generate_minute_level_predictions`
once the cycle dictionary has all its keys. -/
def buildRecord (moonRA : ℤ → ℚ) (t : ℤ) (dasha_info : DashaInfo) : Record :=
  let moon_long := calculate_moon_position moonRA t
  let current_nakshatra := get_current_nakshatra moon_long
  let nakshatra_progress :=
    (moon_long - current_nakshatra.range.1) /
      (current_nakshatra.range.2 - current_nakshatra.range.1)
  let mahadasha_influence := planet_influences dasha_info.mahadasha_lord
  let bhukti_influence := planet_influences dasha_info.bhukti_lord
  let nakshatra_influence := planet_influences current_nakshatra.lord
  let total_volatility :=
    mahadasha_influence.volatility * 0.4 +
    bhukti_influence.volatility * 0.3 +
    nakshatra_influence.volatility * 0.3
  { timestamp := t
    time_str := formatHM t
    moon_longitude := moon_long
    current_nakshatra := current_nakshatra.name
    nakshatra_lord := current_nakshatra.lord
    nakshatra_progress := nakshatra_progress
    mahadasha_lord := dasha_info.mahadasha_lord
    bhukti_lord := dasha_info.bhukti_lord
    mahadasha_progress := dasha_info.mahadasha_progress
    bhukti_progress := dasha_info.bhukti_progress
    predicted_volatility := total_volatility
    predicted_direction :=
      predictedDirection mahadasha_influence.direction bhukti_influence.direction
        nakshatra_influence.direction
    combined_influence_score :=
      calculate_combined_score mahadasha_influence bhukti_influence nakshatra_influence
    key_events := detect_key_events current_nakshatra dasha_info nakshatra_progress }

/-- Dispatch on the cycle resolver's outcome: only a `full` dictionary lets
the loop body build its record; the fallback dictionary (missing progress
keys, `KeyError`) or an `IndexError` abort the iteration. -/
def mkRecordAux (moonRA : ℤ → ℚ) (t : ℤ) : DashaOutcome → Option Record
  | .full dasha_info => some (buildRecord moonRA t dasha_info)
  | _ => none

/-- The loop body of `generate_minute_level_predictions` for one instant. -/
def mkRecord (moonRA : ℤ → ℚ) (t : ℤ) : Option Record :=
  mkRecordAux moonRA t (calculate_dasha_bhukti ((t - market_birth).fdiv 1440))

/-- Prepend one loop iteration's outcome to the rest of the sequence: a
failed minute (`none`) aborts the whole generation. -/
def consRecord (r : Option Record) (rest : Option (List Record)) : Option (List Record) :=
  match r with
  | some rec => rest.map (rec :: ·)
  | none => none

/-- `generate_minute_level_predictions`: the minute-stepped loop from
`start_time` to `end_time` inclusive. -/
def generate_minute_level_predictions (moonRA : ℤ → ℚ) (start_time end_time : ℤ) :
    Option (List Record) :=
  if _h : start_time ≤ end_time then
    consRecord (mkRecord moonRA start_time)
      (generate_minute_level_predictions moonRA (start_time + 1) end_time)
  else some []
termination_by (end_time + 1 - start_time).toNat
decreasing_by omega

/-- One entry of the `identify_key_periods` result. -/
structure KeyPeriod where
  ptype : String
  periods : List String
  intensity : String
  recommendation : String
deriving DecidableEq, Repr, Inhabited

/-- `identify_key_periods`. -/
def identify_key_periods (predictions : List Record) : List KeyPeriod :=
  let high_vol_periods := predictions.filter (fun p => decide (p.predicted_volatility > 0.7))
  let strong_bullish := predictions.filter
    (fun p => decide (p.predicted_direction = .bullish ∧ p.combined_influence_score > 0.7))
  let strong_bearish := predictions.filter
    (fun p => decide (p.predicted_direction = .bearish ∧ p.combined_influence_score > 0.7))
  (if high_vol_periods.isEmpty then [] else
    [⟨"High Volatility", (high_vol_periods.take 3).map Record.time_str, "Very High",
      "Caution - Tight stop losses"⟩]) ++
  (if strong_bullish.isEmpty then [] else
    [⟨"Strong Bullish Bias", (strong_bullish.take 2).map Record.time_str, "High",
      "Good for long entries"⟩]) ++
  (if strong_bearish.isEmpty then [] else
    [⟨"Strong Bearish Bias", (strong_bearish.take 2).map Record.time_str, "High",
      "Consider short positions"⟩])

/-- `direction.capitalize()` for the four direction strings. -/
def capitalizeDirection : Direction → String
  | .bullish => "Bullish"
  | .bearish => "Bearish"
  | .neutral => "Neutral"
  | .uncertain => "Uncertain"

/-- `get_session_character`. -/
def get_session_character (direction : Direction) (volatility : ℚ) : String :=
  if volatility > 0.7 then "Highly Volatile"
  else if volatility > 0.5 then "Moderately Volatile " ++ capitalizeDirection direction
  else "Stable " ++ capitalizeDirection direction

/-- The dictionary returned by `predict_session_outcome`. -/
structure SessionOutcome where
  overall_direction : Direction
  confidence : ℚ
  average_volatility : ℚ
  session_character : String
deriving DecidableEq, Repr, Inhabited

/-- `predict_session_outcome`: `none` models the `ZeroDivisionError` /
`ValueError` crash on an empty prediction list. -/
def predict_session_outcome (predictions : List Record) : Option SessionOutcome :=
  match predictions with
  | [] => none
  | _ =>
    let direction_counts := tally (predictions.map Record.predicted_direction)
    let total_volatility := (predictions.map Record.predicted_volatility).sum
    let avg_volatility := total_volatility / (predictions.length : ℚ)
    match pymax direction_counts with
    | some kv =>
        some
          { overall_direction := kv.1
            confidence := (lookupCount direction_counts kv.1 : ℚ) / (predictions.length : ℚ)
            average_volatility := avg_volatility
            session_character := get_session_character kv.1 avg_volatility }
    | none => none

/-- One entry of the `get_dominant_influences` result. -/
structure DominantInfluence where
  planet : Planet
  influence_percentage : ℚ
deriving DecidableEq, Repr, Inhabited

/-- `get_dominant_influences`: insertion-ordered ruler counts over the three
lords of every record, Python's stable `sorted(..., reverse=True)` by count,
top 3 with percentages.  (On the empty list the division never executes, so
this function is total.) -/
def get_dominant_influences (predictions : List Record) : List DominantInfluence :=
  let lord_counts := predictions.foldl
    (fun counts p =>
      [p.mahadasha_lord, p.bhukti_lord, p.nakshatra_lord].foldl bump counts) []
  let total : ℚ := (predictions.length : ℚ) * 3
  ((lord_counts.mergeSort (fun a b => b.2 ≤ a.2)).take 3).map
    (fun kv => ⟨kv.1, ((kv.2 : ℚ) / total) * 100⟩)

/-- The dictionary returned by `assess_session_risk`. -/
structure RiskAssessment where
  level : String
  advice : String
deriving DecidableEq, Repr, Inhabited

/-- `assess_session_risk`: `none` models the `ZeroDivisionError` on an empty
prediction list. -/
def assess_session_risk (predictions : List Record) : Option RiskAssessment :=
  match predictions with
  | [] => none
  | _ =>
    let high_risk_periods :=
      (predictions.filter (fun p => decide (p.predicted_volatility > 0.7))).length
    let risk_ratio : ℚ := (high_risk_periods : ℚ) / (predictions.length : ℚ)
    if risk_ratio > 0.3 then some ⟨"HIGH", "Reduce position sizing"⟩
    else if risk_ratio > 0.15 then some ⟨"MEDIUM", "Normal caution advised"⟩
    else some ⟨"LOW", "Favorable for trading"⟩

/-! ### Helper lemmas -/

/-- `Rat.floor` agrees with the mathematical floor. -/
theorem ratFloor_eq_intFloor (q : ℚ) : q.floor = ⌊q⌋ := by
  rw [Rat.floor_def', Rat.floor_def]

/-- `pymod` written with the mathematical floor. -/
theorem pymod_def (a b : ℚ) : pymod a b = a - b * (⌊a / b⌋ : ℤ) := by
  rw [pymod, ratFloor_eq_intFloor]

/-- `pymod` is the modulus-scaled fractional part. -/
theorem pymod_eq_fract (a b : ℚ) (hb : b ≠ 0) : pymod a b = b * Int.fract (a / b) := by
  rw [pymod_def, Int.fract]
  field_simp

theorem pymod_nonneg (a b : ℚ) (hb : 0 < b) : 0 ≤ pymod a b := by
  rw [pymod_eq_fract a b hb.ne']
  exact mul_nonneg hb.le (Int.fract_nonneg _)

theorem pymod_lt (a b : ℚ) (hb : 0 < b) : pymod a b < b := by
  rw [pymod_eq_fract a b hb.ne']
  calc b * Int.fract (a / b) < b * 1 := by
        exact mul_lt_mul_of_pos_left (Int.fract_lt_one _) hb
    _ = b := mul_one b

/-- For a nonnegative argument, Python's `int()` is the floor. -/
theorem pytrunc_of_nonneg (q : ℚ) (hq : 0 ≤ q) : pytrunc q = ⌊q⌋ := by
  rw [pytrunc, if_neg (not_lt.2 hq), ratFloor_eq_intFloor]

/-- Every ruler has a positive period span. -/
theorem planetDays_pos (p : Planet) : 0 < planetDays p := by
  cases p <;> norm_num [planetDays, mahadasha_years]

/-- The nine spans sum to the macro-cycle length used as the modulus. -/
theorem spanSum_eq_total : (mahadashaOrder.map planetDays).sum = total_mahadasha_days := by
  norm_num [mahadashaOrder, planetDays, mahadasha_years, total_mahadasha_days]

/-- The macro-cycle length is positive (it is `43830` days). -/
theorem total_mahadasha_days_pos : (0 : ℚ) < total_mahadasha_days := by
  norm_num [total_mahadasha_days, mahadashaOrder, mahadasha_years]


/-- Soundness of the mahadasha walk. -/
theorem dashaLoop_sound (elapsed : ℚ) :
    ∀ (ps : List Planet) (current : ℚ),
      current ≤ elapsed →
      elapsed < current + (ps.map planetDays).sum →
      ∃ info, dashaLoop elapsed ps current = .full info ∧
        info.mahadasha_lord ∈ ps ∧
        0 ≤ info.mahadasha_progress ∧ info.mahadasha_progress < 1 ∧
        0 ≤ info.bhukti_progress ∧ info.bhukti_progress < 1 ∧
        pyindex mahadashaOrder ⌊9 * info.mahadasha_progress⌋ = some info.bhukti_lord := by
  intro ps
  induction ps with
  | nil =>
      intro current h1 h2
      rw [List.map_nil, List.sum_nil, add_zero] at h2
      exact absurd h2 (not_lt.2 h1)
  | cons p rest ih =>
      intro current h1 h2
      rw [List.map_cons, List.sum_cons] at h2
      have hpd : 0 < planetDays p := planetDays_pos p
      by_cases hlt : elapsed < current + planetDays p
      · have hbe0 : 0 ≤ elapsed - current := sub_nonneg.2 h1
        have hbelt : elapsed - current < planetDays p := by linarith
        have hbt : (0 : ℚ) < planetDays p / 9 := by positivity
        have hq0 : 0 ≤ (elapsed - current) / (planetDays p / 9) :=
          div_nonneg hbe0 hbt.le
        have hq9 : (elapsed - current) / (planetDays p / 9) < 9 := by
          rw [div_lt_iff₀ hbt]
          linarith
        have htr : pytrunc ((elapsed - current) / (planetDays p / 9)) =
            ⌊(elapsed - current) / (planetDays p / 9)⌋ := pytrunc_of_nonneg _ hq0
        have hfl0 : 0 ≤ ⌊(elapsed - current) / (planetDays p / 9)⌋ := Int.floor_nonneg.2 hq0
        have hfl9 : ⌊(elapsed - current) / (planetDays p / 9)⌋ < 9 := by
          refine Int.floor_lt.2 ?_
          push_cast
          exact hq9
        have hlen : mahadashaOrder.length = 9 := by rfl
        have hnlt : (⌊(elapsed - current) / (planetDays p / 9)⌋).toNat < mahadashaOrder.length := by
          rw [hlen]
          omega
        have hgetsome :
            mahadashaOrder.get? (⌊(elapsed - current) / (planetDays p / 9)⌋).toNat =
              some (mahadashaOrder.get ⟨_, hnlt⟩) := List.get?_eq_get hnlt
        have hpyidx :
            pyindex mahadashaOrder ⌊(elapsed - current) / (planetDays p / 9)⌋ =
              some (mahadashaOrder.get ⟨_, hnlt⟩) := by
          rw [pyindex, if_pos hfl0, hgetsome]
        refine ⟨⟨p, mahadashaOrder.get ⟨_, hnlt⟩, (elapsed - current) / planetDays p,
          pymod (elapsed - current) (planetDays p / 9) / (planetDays p / 9)⟩, ?_, ?_, ?_, ?_, ?_, ?_, ?_⟩
        · simp only [dashaLoop]
          rw [if_pos ⟨h1, hlt⟩, htr, hpyidx]
        · exact List.mem_cons_self p rest
        · exact div_nonneg hbe0 hpd.le
        · rw [div_lt_one hpd]
          exact hbelt
        · exact div_nonneg (pymod_nonneg _ _ hbt) hbt.le
        · rw [div_lt_one hbt]
          exact pymod_lt _ _ hbt
        · have h9q : 9 * ((elapsed - current) / planetDays p) =
              (elapsed - current) / (planetDays p / 9) := by
            field_simp
            ring
          rw [h9q]
          exact hpyidx
      · have hge : current + planetDays p ≤ elapsed := not_lt.1 hlt
        have h2' : elapsed < current + planetDays p + (rest.map planetDays).sum := by
          linarith
        obtain ⟨info, heq, hmem, hrest⟩ := ih (current + planetDays p) hge h2'
        refine ⟨info, ?_, List.mem_cons_of_mem p hmem, hrest⟩
        simp only [dashaLoop]
        rw [if_neg (fun hc => hlt hc.2)]
        exact heq

/-- For every integer day count, negative or not, the cycle resolver returns
a `full` dictionary with both progress fields in `[0, 1)`, and the sub ruler
is the fixed-order entry at index `⌊9 * majorProgress⌋`. -/
theorem calc_dasha_full (d : ℤ) :
    ∃ info, calculate_dasha_bhukti d = .full info ∧
      0 ≤ info.mahadasha_progress ∧ info.mahadasha_progress < 1 ∧
      0 ≤ info.bhukti_progress ∧ info.bhukti_progress < 1 ∧
      pyindex mahadashaOrder ⌊9 * info.mahadasha_progress⌋ = some info.bhukti_lord := by
  have h0 := total_mahadasha_days_pos
  have h1 := pymod_nonneg (d : ℚ) total_mahadasha_days h0
  have h2 := pymod_lt (d : ℚ) total_mahadasha_days h0
  obtain ⟨info, heq, _, hb⟩ := dashaLoop_sound (pymod (d : ℚ) total_mahadasha_days)
    mahadashaOrder 0 h1 (by rw [spanSum_eq_total]; linarith)
  exact ⟨info, heq, hb⟩

/-- Concrete evaluation of the resolver at the epoch itself. -/
theorem calc_dasha_at_zero : calculate_dasha_bhukti 0 = .full ⟨.Ketu, .Ketu, 0, 0⟩ := by
  norm_num [calculate_dasha_bhukti, dashaLoop, pymod, pytrunc, pyindex, mahadashaOrder,
    total_mahadasha_days, planetDays, mahadasha_years, Rat.floor_def']

/-- C3: for every instant at or after the epoch the cycle resolver succeeds with
the `full` dictionary (the progress-less fallback is unreachable), both progress
fields lie in `[0, 1)`, and the nine major-ruler span lengths sum exactly to the
macro-cycle length used for the modulo. -/
theorem C3_cycle_resolver_success (d : ℤ) (_hd : 0 ≤ d) :
    (∃ info, calculate_dasha_bhukti d = .full info ∧
      0 ≤ info.mahadasha_progress ∧ info.mahadasha_progress < 1 ∧
      0 ≤ info.bhukti_progress ∧ info.bhukti_progress < 1) ∧
    (mahadashaOrder.map planetDays).sum = total_mahadasha_days := by
  obtain ⟨info, heq, hm0, hm1, hb0, hb1, _⟩ := calc_dasha_full d
  exact ⟨⟨info, heq, hm0, hm1, hb0, hb1⟩, spanSum_eq_total⟩

/-- Witness for C3 at the concrete day count `0`. -/
theorem C3_cycle_resolver_success_witness :
    (∃ info, calculate_dasha_bhukti 0 = .full info ∧
      0 ≤ info.mahadasha_progress ∧ info.mahadasha_progress < 1 ∧
      0 ≤ info.bhukti_progress ∧ info.bhukti_progress < 1) ∧
    (mahadashaOrder.map planetDays).sum = total_mahadasha_days :=
  C3_cycle_resolver_success 0 le_rfl

/-- C5: for every instant at or after the epoch, the sub ruler is the entry of
the fixed nine-ruler order at index `⌊elapsedWithinMajor / (majorLength / 9)⌋`
(equivalently `⌊9 * majorProgress⌋`), indexed from the first ruler of the fixed
order (Ketu) and never rotated to start at the active major ruler; at elapsed
day `0` the major ruler is the first ruler of the fixed order with progress `0`
and the sub ruler is the same first ruler with progress `0`. -/
theorem C5_sub_ruler_fixed_order (d : ℤ) (_hd : 0 ≤ d) :
    mahadashaOrder.headI = .Ketu ∧
    ∃ info, calculate_dasha_bhukti d = .full info ∧
      pyindex mahadashaOrder ⌊9 * info.mahadasha_progress⌋ = some info.bhukti_lord ∧
      (d = 0 → info = ⟨.Ketu, .Ketu, 0, 0⟩) := by
  obtain ⟨info, heq, _, _, _, _, hidx⟩ := calc_dasha_full d
  refine ⟨rfl, info, heq, hidx, fun h0 => ?_⟩
  rw [h0, calc_dasha_at_zero] at heq
  exact DashaOutcome.full.inj heq.symm

/-- Witness for C5 at the concrete day count `0`. -/
theorem C5_sub_ruler_fixed_order_witness :
    mahadashaOrder.headI = .Ketu ∧
    ∃ info, calculate_dasha_bhukti 0 = .full info ∧
      pyindex mahadashaOrder ⌊9 * info.mahadasha_progress⌋ = some info.bhukti_lord ∧
      ((0 : ℤ) = 0 → info = ⟨.Ketu, .Ketu, 0, 0⟩) :=
  C5_sub_ruler_fixed_order 0 le_rfl

/-- C8 counterexample: one day before the epoch the resolver does not fail in
any modelled way — it returns a fully populated dictionary, so no error about
the invalid input is ever reported. -/
theorem C8_counterexample :
    calculate_dasha_bhukti (-1) ≠ .fallback ∧ calculate_dasha_bhukti (-1) ≠ .indexError := by
  obtain ⟨info, heq, _⟩ := calc_dasha_full (-1)
  rw [heq]
  exact ⟨fun h => DashaOutcome.noConfusion h, fun h => DashaOutcome.noConfusion h⟩

/-- C8 (amended): for instants strictly before the epoch the resolver does not
fail at all — Python's floored modulo silently wraps the negative day count
into `[0, cycleLength)` and a normal `full` dictionary with in-range progress
fields is returned. -/
theorem C8_negative_silently_wraps (d : ℤ) (_hd : d < 0) :
    0 ≤ pymod (d : ℚ) total_mahadasha_days ∧
    pymod (d : ℚ) total_mahadasha_days < total_mahadasha_days ∧
    ∃ info, calculate_dasha_bhukti d = .full info ∧
      0 ≤ info.mahadasha_progress ∧ info.mahadasha_progress < 1 ∧
      0 ≤ info.bhukti_progress ∧ info.bhukti_progress < 1 := by
  obtain ⟨info, heq, hm0, hm1, hb0, hb1, _⟩ := calc_dasha_full d
  exact ⟨pymod_nonneg _ _ total_mahadasha_days_pos,
    pymod_lt _ _ total_mahadasha_days_pos, info, heq, hm0, hm1, hb0, hb1⟩

/-- Witness for the amended C8 at the concrete day count `-1`. -/
theorem C8_negative_silently_wraps_witness :
    0 ≤ pymod ((-1 : ℤ) : ℚ) total_mahadasha_days ∧
    pymod ((-1 : ℤ) : ℚ) total_mahadasha_days < total_mahadasha_days ∧
    ∃ info, calculate_dasha_bhukti (-1) = .full info ∧
      0 ≤ info.mahadasha_progress ∧ info.mahadasha_progress < 1 ∧
      0 ≤ info.bhukti_progress ∧ info.bhukti_progress < 1 :=
  C8_negative_silently_wraps (-1) (by norm_num)

/-- C1: on the empty record sequence the two ratio-forming aggregators crash
(`ZeroDivisionError`, modelled as `none`) while the other two aggregators
return empty lists — so no defined empty `SessionSummary` is produced. -/
theorem C1_empty_aggregation :
    predict_session_outcome [] = none ∧
    assess_session_risk [] = none ∧
    identify_key_periods [] = [] ∧
    get_dominant_influences [] = [] := by
  refine ⟨rfl, rfl, rfl, ?_⟩
  simp [get_dominant_influences]

/-- C7: the combined influence score is the `0.4/0.3/0.3` volatility blend,
boosted by `1.3` and capped at `1.0` exactly in the all-directions-identical
branch; on the table rows with directions all bullish and volatilities
`0.2, 0.3, 0.3` (Jupiter, Venus, Venus) the blend is `0.26` and the score is
`min 1 (0.26 * 1.3) = 0.338`. -/
theorem C7_alignment_boost :
    (∀ m b n : PlanetInfluence,
      calculate_combined_score m b n =
        if m.direction = b.direction ∧ b.direction = n.direction
        then min 1 ((m.volatility * 0.4 + b.volatility * 0.3 + n.volatility * 0.3) * 1.3)
        else min 1 (m.volatility * 0.4 + b.volatility * 0.3 + n.volatility * 0.3)) ∧
    (planet_influences .Jupiter).volatility * 0.4 + (planet_influences .Venus).volatility * 0.3 +
        (planet_influences .Venus).volatility * 0.3 = 0.26 ∧
    (planet_influences .Jupiter).direction = .bullish ∧
    (planet_influences .Venus).direction = .bullish ∧
    calculate_combined_score (planet_influences .Jupiter) (planet_influences .Venus)
        (planet_influences .Venus) = 0.338 ∧
    (0.338 : ℚ) = min 1 (0.26 * 1.3) := by
  refine ⟨?_, ?_, rfl, rfl, ?_, ?_⟩
  · intro m b n
    rw [calculate_combined_score]
    split
    · rfl
    · rfl
  · norm_num [planet_influences]
  · norm_num [calculate_combined_score, planet_influences, min_def]
  · norm_num [min_def]

/-- If the range test fails on every table entry, the scan finds nothing. -/
theorem findSegment_eq_none (test : ℚ → ℚ → Bool) :
    ∀ l : List Nakshatra, (∀ n ∈ l, test n.range.1 n.range.2 = false) →
      findSegment test l = none := by
  intro l
  induction l with
  | nil => intro _; rfl
  | cons n rest ih =>
      intro h
      rw [findSegment, h n (List.mem_cons_self n rest), ih fun m hm => h m (List.mem_cons_of_mem n hm)]
      rfl

/-- C9: the segment resolver is total — for every rational longitude contained
in no segment's half-open range it returns the first table entry (Ashwini),
and with an always-false range test (the IEEE comparison behaviour of a NaN
longitude) the scan likewise finds nothing, so the same first-entry fallback
is taken. -/
theorem C9_resolver_total_fallback (L : ℚ)
    (h : ∀ n ∈ nakshatras, ¬(n.range.1 ≤ L ∧ L < n.range.2)) :
    get_current_nakshatra L = nakshatras.headI ∧
    nakshatras.headI.name = "Ashwini" ∧
    findSegment (fun _ _ => false) nakshatras = none := by
  have hnone : findSegment (fun s e => decide (s ≤ L ∧ L < e)) nakshatras = none :=
    findSegment_eq_none _ _ fun n hn => decide_eq_false (h n hn)
  refine ⟨?_, rfl, findSegment_eq_none _ _ fun n _ => rfl⟩
  rw [get_current_nakshatra, hnone]

/-- Witness for C9 at the out-of-range longitude `-1`. -/
theorem C9_resolver_total_fallback_witness :
    get_current_nakshatra (-1) = nakshatras.headI ∧
    nakshatras.headI.name = "Ashwini" ∧
    findSegment (fun _ _ => false) nakshatras = none :=
  C9_resolver_total_fallback (-1) (by norm_num [nakshatras])

/-- C4 counterexample: the very first segment's span is `13.3333`, which is
not `360 / 27` (`= 13.3̄`), so the spans are not all equal to `360/27`. -/
theorem C4_counterexample :
    nakshatras.headI.range.2 - nakshatras.headI.range.1 ≠ 360 / 27 := by
  norm_num [nakshatras]

/-- A chain of abutting half-open ranges covers everything from the head's
start to the last end. -/
theorem segment_cover (L : ℚ) :
    ∀ (ns : List Nakshatra), List.Chain' (fun a b => a.range.2 = b.range.1) ns →
      ∀ nl, ns.getLast? = some nl → ns.headI.range.1 ≤ L → L < nl.range.2 →
        ∃ n ∈ ns, n.range.1 ≤ L ∧ L < n.range.2 := by
  intro ns
  induction ns with
  | nil => intro _ nl hlast; exact absurd hlast (by simp)
  | cons a rest ih =>
      intro hchain nl hlast hlo hhi
      cases rest with
      | nil =>
          refine ⟨a, List.mem_cons_self a [], hlo, ?_⟩
          have hnl : a = nl := by simpa using hlast
          rw [hnl]
          exact hhi
      | cons b rest2 =>
          rw [List.chain'_cons] at hchain
          by_cases hcase : L < a.range.2
          · exact ⟨a, List.mem_cons_self a _, hlo, hcase⟩
          · have hlast2 : (b :: rest2).getLast? = some nl := by
              rw [← hlast, List.getLast?_cons_cons]
            have hlo2 : (b :: rest2).headI.range.1 ≤ L := by
              simp only [List.headI]
              rw [← hchain.1]
              exact not_lt.1 hcase
            obtain ⟨n, hn, hl, hr⟩ := ih hchain.2 nl hlast2 hlo2 hhi
            exact ⟨n, List.mem_cons_of_mem a hn, hl, hr⟩

/-- In a list of pairwise-ordered disjoint half-open ranges, at most one entry
contains any given point. -/
theorem segment_unique (L : ℚ) :
    ∀ (ns : List Nakshatra), List.Pairwise (fun a b => a.range.2 ≤ b.range.1) ns →
      ∀ n₁ ∈ ns, ∀ n₂ ∈ ns,
        (n₁.range.1 ≤ L ∧ L < n₁.range.2) → (n₂.range.1 ≤ L ∧ L < n₂.range.2) → n₁ = n₂ := by
  intro ns
  induction ns with
  | nil => intro _ n₁ h₁; exact absurd h₁ (List.not_mem_nil n₁)
  | cons a rest ih =>
      intro hp n₁ h₁ n₂ h₂ hc₁ hc₂
      rw [List.pairwise_cons] at hp
      rcases List.mem_cons.1 h₁ with rfl | h₁r
      · rcases List.mem_cons.1 h₂ with rfl | h₂r
        · rfl
        · exact absurd (hp.1 n₂ h₂r) (by push_neg; exact lt_of_le_of_lt hc₂.1 hc₁.2)
      · rcases List.mem_cons.1 h₂ with rfl | h₂r
        · exact absurd (hp.1 n₁ h₁r) (by push_neg; exact lt_of_le_of_lt hc₁.1 hc₂.2)
        · exact ih hp.2 n₁ h₁r n₂ h₂r hc₁ hc₂

/-- The 27 table ranges abut: each segment's end is the next one's start. -/
theorem nakshatras_chain :
    List.Chain' (fun a b => a.range.2 = b.range.1) nakshatras := by
  simp only [nakshatras, List.chain'_cons, List.chain'_singleton]
  norm_num

/-- The 27 table ranges are pairwise ordered and disjoint. -/
theorem nakshatras_pairwise :
    List.Pairwise (fun a b => a.range.2 ≤ b.range.1) nakshatras := by
  simp only [nakshatras, List.pairwise_cons, List.mem_cons, List.not_mem_nil, forall_eq_or_imp,
    forall_eq, List.Pairwise.nil, and_true, List.mem_singleton, or_false, false_implies,
    forall_const, IsEmpty.forall_iff]
  norm_num

/-- C4 (amended): the 27 table entries still partition `[0, 360)` exactly —
contiguous, non-overlapping, every longitude in `[0, 360)` contained in
exactly one half-open range — but the individual spans are the truncated
decimals `13.3333` or `13.3334`, not all equal to `360 / 27`. -/
theorem C4_partition_amended (L : ℚ) (h0 : 0 ≤ L) (h1 : L < 360) :
    (∃! n, n ∈ nakshatras ∧ n.range.1 ≤ L ∧ L < n.range.2) ∧
    (∀ n ∈ nakshatras, n.range.2 - n.range.1 = 13.3333 ∨ n.range.2 - n.range.1 = 13.3334) ∧
    nakshatras.length = 27 := by
  refine ⟨?_, ?_, rfl⟩
  · obtain ⟨n, hn, hc⟩ := segment_cover L nakshatras nakshatras_chain
      ⟨"Revati", .Mercury, (346.6666, 360.0)⟩ rfl
      (by exact h0) (lt_of_lt_of_le h1 (by norm_num))
    refine ⟨n, ⟨hn, hc⟩, ?_⟩
    rintro m ⟨hm, hcm⟩
    exact segment_unique L nakshatras nakshatras_pairwise m hm n hn hcm hc
  · simp only [nakshatras, List.forall_mem_cons, List.forall_mem_nil, and_true]
    norm_num

/-- Witness for the amended C4 at the concrete longitude `100`. -/
theorem C4_partition_amended_witness :
    (∃! n, n ∈ nakshatras ∧ n.range.1 ≤ (100 : ℚ) ∧ (100 : ℚ) < n.range.2) ∧
    (∀ n ∈ nakshatras, n.range.2 - n.range.1 = 13.3333 ∨ n.range.2 - n.range.1 = 13.3334) ∧
    nakshatras.length = 27 :=
  C4_partition_amended 100 (by norm_num) (by norm_num)

/-- Filtering a constant list keeps everything or nothing. -/
theorem filter_replicate_eq {α : Type} (p : α → Bool) (a : α) :
    ∀ n : ℕ, (List.replicate n a).filter p = if p a then List.replicate n a else [] := by
  intro n
  induction n with
  | zero => simp
  | succ k ih =>
      rw [List.replicate_succ, List.filter_cons, ih]
      by_cases hp : p a
      · simp [hp, List.replicate_succ]
      · simp [hp]

/-- C6: for every non-empty record sequence the risk bucket is HIGH exactly
when the high-volatility ratio strictly exceeds `0.3`, MEDIUM exactly when it
strictly exceeds `0.15` without exceeding `0.3`, and LOW exactly when it is at
most `0.15`. -/
theorem C6_risk_thresholds (records : List Record) (h : records ≠ []) :
    ∃ r, assess_session_risk records = some r ∧
      ((r.level = "HIGH" ↔
        ((records.filter (fun p => decide (p.predicted_volatility > 0.7))).length : ℚ) /
          (records.length : ℚ) > 0.3) ∧
       (r.level = "MEDIUM" ↔
        (0.15 < ((records.filter (fun p => decide (p.predicted_volatility > 0.7))).length : ℚ) /
          (records.length : ℚ) ∧
         ((records.filter (fun p => decide (p.predicted_volatility > 0.7))).length : ℚ) /
          (records.length : ℚ) ≤ 0.3)) ∧
       (r.level = "LOW" ↔
        ((records.filter (fun p => decide (p.predicted_volatility > 0.7))).length : ℚ) /
          (records.length : ℚ) ≤ 0.15)) := by
  obtain ⟨a, as, rfl⟩ := List.exists_cons_of_ne_nil h
  simp only [assess_session_risk]
  split_ifs with h1 h2
  · refine ⟨⟨"HIGH", "Reduce position sizing"⟩, rfl, ?_, ?_, ?_⟩
    · exact iff_of_true rfl h1
    · refine iff_of_false (by simp) ?_
      intro hr
      exact absurd h1 (not_lt.2 hr.2)
    · refine iff_of_false (by simp) ?_
      intro hr
      have : (0.15 : ℚ) < 0.3 := by norm_num
      exact absurd h1 (not_lt.2 (le_trans hr this.le))
  · refine ⟨⟨"MEDIUM", "Normal caution advised"⟩, rfl, ?_, ?_, ?_⟩
    · exact iff_of_false (by simp) h1
    · exact iff_of_true rfl ⟨h2, not_lt.1 h1⟩
    · refine iff_of_false (by simp) ?_
      intro hr
      exact absurd h2 (not_lt.2 hr)
  · refine ⟨⟨"LOW", "Favorable for trading"⟩, rfl, ?_, ?_, ?_⟩
    · exact iff_of_false (by simp) h1
    · refine iff_of_false (by simp) ?_
      intro hr
      exact h2 hr.1
    · exact iff_of_true rfl (not_lt.1 h2)

/-- A record with volatility `0.8` (above the `0.7` threshold). -/
def highRecord : Record := ⟨0, "", 0, "", .Ketu, 0, .Ketu, .Ketu, 0, 0, 0.8, .neutral, 0, []⟩

/-- A record with volatility `0.1` (below the `0.7` threshold). -/
def lowRecord : Record := ⟨0, "", 0, "", .Ketu, 0, .Ketu, .Ketu, 0, 0, 0.1, .neutral, 0, []⟩

/-- A 100-record sequence of which exactly 31% are high-volatility. -/
def records31 : List Record := List.replicate 31 highRecord ++ List.replicate 69 lowRecord

/-- A 20-record sequence of which exactly 15% are high-volatility. -/
def records15 : List Record := List.replicate 3 highRecord ++ List.replicate 17 lowRecord

/-- Witness for C6: the 31% sequence classifies HIGH and the 15% sequence
classifies LOW. -/
theorem C6_risk_thresholds_witness :
    (∃ r, assess_session_risk records31 = some r ∧ r.level = "HIGH") ∧
    (∃ r, assess_session_risk records15 = some r ∧ r.level = "LOW") := by
  constructor
  · obtain ⟨r, hr, hiff, _, _⟩ :=
      C6_risk_thresholds records31 (List.ne_nil_of_length_pos (by simp [records31]))
    refine ⟨r, hr, hiff.2 ?_⟩
    have hfil : records31.filter (fun p => decide (p.predicted_volatility > 0.7)) =
        List.replicate 31 highRecord := by
      rw [records31, List.filter_append, filter_replicate_eq, filter_replicate_eq]
      norm_num [highRecord, lowRecord]
    rw [hfil, records31]
    simp only [List.length_append, List.length_replicate]
    norm_num
  · obtain ⟨r, hr, _, _, hiff⟩ :=
      C6_risk_thresholds records15 (List.ne_nil_of_length_pos (by simp [records15]))
    refine ⟨r, hr, hiff.2 ?_⟩
    have hfil : records15.filter (fun p => decide (p.predicted_volatility > 0.7)) =
        List.replicate 3 highRecord := by
      rw [records15, List.filter_append, filter_replicate_eq, filter_replicate_eq]
      norm_num [highRecord, lowRecord]
    rw [hfil, records15]
    simp only [List.length_append, List.length_replicate]
    norm_num

/-- One minute of the generator loop always succeeds, and the four cycle
fields it stores are the `full` dictionary of the resolver evaluated against
the fixed epoch. -/
theorem mkRecord_sound (moonRA : ℤ → ℚ) (t : ℤ) :
    ∃ r, mkRecord moonRA t = some r ∧ r.timestamp = t ∧
      calculate_dasha_bhukti ((r.timestamp - market_birth).fdiv 1440) =
        .full ⟨r.mahadasha_lord, r.bhukti_lord, r.mahadasha_progress, r.bhukti_progress⟩ := by
  obtain ⟨info, heq, _⟩ := calc_dasha_full ((t - market_birth).fdiv 1440)
  refine ⟨buildRecord moonRA t info, ?_, rfl, ?_⟩
  · show mkRecordAux moonRA t (calculate_dasha_bhukti ((t - market_birth).fdiv 1440)) =
      some (buildRecord moonRA t info)
    rw [heq]
    rfl
  · exact heq

/-- The generator always returns a sequence, every record of which carries
cycle fields computed by the resolver against the fixed epoch. -/
theorem generate_sound (moonRA : ℤ → ℚ) :
    ∀ (n : ℕ) (s e : ℤ), (e + 1 - s).toNat = n →
      ∃ l, generate_minute_level_predictions moonRA s e = some l ∧
        ∀ r ∈ l, calculate_dasha_bhukti ((r.timestamp - market_birth).fdiv 1440) =
          .full ⟨r.mahadasha_lord, r.bhukti_lord, r.mahadasha_progress, r.bhukti_progress⟩ := by
  intro n
  induction n with
  | zero =>
      intro s e hn
      have hse : ¬ s ≤ e := by omega
      rw [generate_minute_level_predictions, dif_neg hse]
      exact ⟨[], rfl, by simp⟩
  | succ k ih =>
      intro s e hn
      have hse : s ≤ e := by omega
      obtain ⟨r, hmk, _, hchar⟩ := mkRecord_sound moonRA s
      obtain ⟨l, hgen, hl⟩ := ih (s + 1) e (by omega)
      refine ⟨r :: l, ?_, ?_⟩
      · rw [generate_minute_level_predictions, dif_pos hse, hmk, hgen]
        rfl
      · intro x hx
        rcases List.mem_cons.1 hx with rfl | hx'
        · exact hchar
        · exact hl x hx'

/-- C10: the per-minute generator has no epoch parameter — its output is a
function of the ephemeris values and the window alone (equal ephemeris
functions give identical sequences), the generation always succeeds, and every
record's cycle fields are resolved against the single fixed constant epoch
`datetime(1992, 7, 1, 9, 15)` (`market_birth`). -/
theorem C10_generator_fixed_epoch (moonRA moonRA2 : ℤ → ℚ) (s e : ℤ)
    (hf : ∀ t, moonRA t = moonRA2 t) :
    generate_minute_level_predictions moonRA s e =
      generate_minute_level_predictions moonRA2 s e ∧
    ∃ l, generate_minute_level_predictions moonRA s e = some l ∧
      ∀ r ∈ l, calculate_dasha_bhukti ((r.timestamp - market_birth).fdiv 1440) =
        .full ⟨r.mahadasha_lord, r.bhukti_lord, r.mahadasha_progress, r.bhukti_progress⟩ := by
  have hfe : moonRA = moonRA2 := funext hf
  exact ⟨by rw [hfe], generate_sound moonRA ((e + 1 - s).toNat) s e rfl⟩

/-- The constant-zero stand-in for the external ephemeris. -/
def zeroMoonRA : ℤ → ℚ := fun _ => 0

/-- Witness for C10 on the one-minute window `[0, 0]` with the constant
ephemeris. -/
theorem C10_generator_fixed_epoch_witness :
    generate_minute_level_predictions zeroMoonRA 0 0 =
      generate_minute_level_predictions zeroMoonRA 0 0 ∧
    ∃ l, generate_minute_level_predictions zeroMoonRA 0 0 = some l ∧
      ∀ r ∈ l, calculate_dasha_bhukti ((r.timestamp - market_birth).fdiv 1440) =
        .full ⟨r.mahadasha_lord, r.bhukti_lord, r.mahadasha_progress, r.bhukti_progress⟩ :=
  C10_generator_fixed_epoch zeroMoonRA zeroMoonRA 0 0 (fun _ => rfl)

/-! ### Dictionary model lemmas (insertion order and counts) -/

/-- `bump` increments exactly the count of its key. -/
theorem bump_lookup {α : Type} [DecidableEq α] :
    ∀ (l : List (α × ℕ)) (d x : α),
      lookupCount (bump l d) x = lookupCount l x + (if x = d then 1 else 0) := by
  intro l
  induction l with
  | nil =>
      intro d x
      by_cases h : d = x
      · subst h
        simp [bump, lookupCount]
      · simp only [bump, lookupCount]
        rw [if_neg h, if_neg (fun hh : x = d => h hh.symm)]
  | cons kv rest ih =>
      intro d x
      obtain ⟨k, v⟩ := kv
      simp only [bump]
      by_cases hkd : k = d
      · rw [if_pos hkd]
        simp only [lookupCount]
        by_cases hkx : k = x
        · have hxd : x = d := by rw [← hkx, hkd]
          rw [if_pos hkx, if_pos hkx, if_pos hxd]
        · have hxd : ¬ x = d := fun h => hkx (by rw [hkd, h])
          rw [if_neg hkx, if_neg hkx, if_neg hxd]
          omega
      · rw [if_neg hkd]
        simp only [lookupCount]
        by_cases hkx : k = x
        · have hxd : ¬ x = d := fun h => hkd (by rw [hkx, h])
          rw [if_pos hkx, if_pos hkx, if_neg hxd]
          omega
        · rw [if_neg hkx, if_neg hkx, ih]

/-- Folding `bump` over a key list adds each key's multiplicity to the counts. -/
theorem tally_loop_lookup {α : Type} [DecidableEq α] :
    ∀ (ds : List α) (acc : List (α × ℕ)) (x : α),
      lookupCount (ds.foldl bump acc) x = lookupCount acc x + ds.count x := by
  intro ds
  induction ds with
  | nil => intro acc x; simp
  | cons d rest ih =>
      intro acc x
      rw [List.foldl_cons, ih, bump_lookup, List.count_cons]
      by_cases h : x = d
      · simp [h]
        omega
      · simp [h]
        exact fun hh => h hh.symm

/-- The count dictionary of a key list holds exactly the multiplicities. -/
theorem tally_lookup {α : Type} [DecidableEq α] (ds : List α) (x : α) :
    lookupCount (tally ds) x = ds.count x := by
  rw [tally, tally_loop_lookup]
  simp [lookupCount]

/-- Appending a key to an insertion-ordered key set. -/
def insKey {α : Type} [DecidableEq α] (ks : List α) (d : α) : List α :=
  if d ∈ ks then ks else ks ++ [d]

/-- `bump` affects the key list like `insKey`. -/
theorem bump_keys {α : Type} [DecidableEq α] :
    ∀ (l : List (α × ℕ)) (d : α), (bump l d).map Prod.fst = insKey (l.map Prod.fst) d := by
  intro l
  induction l with
  | nil => intro d; simp [bump, insKey]
  | cons kv rest ih =>
      intro d
      obtain ⟨k, v⟩ := kv
      simp only [bump]
      by_cases h : k = d
      · rw [if_pos h]
        have hd : d ∈ ((k, v) :: rest).map Prod.fst := by
          rw [List.map_cons]
          exact List.mem_cons.2 (Or.inl h.symm)
        rw [insKey, if_pos hd]
        simp
      · rw [if_neg h]
        simp only [List.map_cons, ih]
        rw [insKey, insKey]
        by_cases hm : d ∈ rest.map Prod.fst
        · rw [if_pos hm, if_pos (List.mem_cons_of_mem _ hm)]
        · rw [if_neg hm, if_neg (fun hc => (List.mem_cons.1 hc).elim (fun he => h he.symm) hm)]
          rfl

/-- Folding `bump` builds keys like folding `insKey`. -/
theorem tally_loop_keys {α : Type} [DecidableEq α] :
    ∀ (ds : List α) (acc : List (α × ℕ)),
      (ds.foldl bump acc).map Prod.fst = ds.foldl insKey (acc.map Prod.fst) := by
  intro ds
  induction ds with
  | nil => intro acc; rfl
  | cons d rest ih =>
      intro acc
      rw [List.foldl_cons, List.foldl_cons, ih, bump_keys]

/-- Membership in `insKey`. -/
theorem insKey_mem {α : Type} [DecidableEq α] (ks : List α) (d x : α) :
    x ∈ insKey ks d ↔ x ∈ ks ∨ x = d := by
  rw [insKey]
  by_cases h : d ∈ ks
  · rw [if_pos h]
    exact ⟨Or.inl, fun hx => hx.elim id (fun he => he ▸ h)⟩
  · rw [if_neg h]
    simp

/-- Membership after folding `insKey`. -/
theorem insFold_mem {α : Type} [DecidableEq α] :
    ∀ (ds ks : List α) (x : α), x ∈ ds.foldl insKey ks ↔ x ∈ ks ∨ x ∈ ds := by
  intro ds
  induction ds with
  | nil => intro ks x; simp
  | cons d rest ih =>
      intro ks x
      rw [List.foldl_cons, ih, insKey_mem]
      simp only [List.mem_cons]
      tauto

/-- `insKey` keeps the key set duplicate-free. -/
theorem insKey_nodup {α : Type} [DecidableEq α] (ks : List α) (d : α) (h : ks.Nodup) :
    (insKey ks d).Nodup := by
  rw [insKey]
  by_cases hm : d ∈ ks
  · rw [if_pos hm]; exact h
  · rw [if_neg hm]
    simp [List.nodup_append, h, hm]

/-- Folding `insKey` keeps the key set duplicate-free. -/
theorem insFold_nodup {α : Type} [DecidableEq α] :
    ∀ (ds ks : List α), ks.Nodup → (ds.foldl insKey ks).Nodup := by
  intro ds
  induction ds with
  | nil => intro ks h; exact h
  | cons d rest ih => intro ks h; exact ih _ (insKey_nodup ks d h)

/-- Folding `insKey` lists keys in order of first appearance: the key list is
pairwise ordered by index in the ambient sequence. -/
theorem insFold_pairwise {α : Type} [DecidableEq α] :
    ∀ (ds pre ks : List α),
      (∀ k, k ∈ ks ↔ k ∈ pre) →
      List.Pairwise (fun a b => (pre ++ ds).indexOf a ≤ (pre ++ ds).indexOf b) ks →
      List.Pairwise (fun a b => (pre ++ ds).indexOf a ≤ (pre ++ ds).indexOf b)
        (ds.foldl insKey ks) := by
  intro ds
  induction ds with
  | nil => intro pre ks _ hp; exact hp
  | cons d rest ih =>
      intro pre ks hmem hp
      rw [List.foldl_cons]
      have key : (pre ++ [d]) ++ rest = pre ++ d :: rest := by simp
      have hp2 : List.Pairwise
          (fun a b => (pre ++ d :: rest).indexOf a ≤ (pre ++ d :: rest).indexOf b)
          (insKey ks d) := by
        rw [insKey]
        by_cases hd : d ∈ ks
        · rw [if_pos hd]; exact hp
        · rw [if_neg hd]
          refine List.pairwise_append.2 ⟨hp, by simp, ?_⟩
          intro a ha b hb
          rw [List.mem_singleton] at hb
          rw [hb]
          have hapre : a ∈ pre := (hmem a).1 ha
          have hdpre : d ∉ pre := fun hc => hd ((hmem d).2 hc)
          rw [List.indexOf_append_of_mem hapre, List.indexOf_append_of_not_mem hdpre]
          have h1 : List.indexOf a pre < pre.length := List.indexOf_lt_length.2 hapre
          have h2 : List.indexOf d (d :: rest) = 0 := List.indexOf_cons_self d rest
          omega
      have hmem' : ∀ k, k ∈ insKey ks d ↔ k ∈ pre ++ [d] := by
        intro k
        rw [insKey_mem, hmem k]
        simp
      have hres := ih (pre ++ [d]) (insKey ks d) hmem' (by rw [key]; exact hp2)
      rw [key] at hres
      exact hres

/-- `pymax` fails exactly on the empty dictionary. -/
theorem pymax_eq_none_iff {α : Type} :
    ∀ (l : List (α × ℕ)), pymax l = none ↔ l = [] := by
  intro l
  cases l with
  | nil => simp [pymax]
  | cons kv rest =>
      simp only [pymax]
      cases hr : pymax rest with
      | none => simp
      | some best =>
          constructor
          · intro h
            exfalso
            by_cases hc : kv.2 < best.2 <;> simp [hc] at h
          · intro h
            exact absurd h (List.cons_ne_nil kv rest)

/-- The entry chosen by `pymax` has maximal value. -/
theorem pymax_is_max {α : Type} :
    ∀ (l : List (α × ℕ)) (kv : α × ℕ), pymax l = some kv →
      ∀ kv' ∈ l, kv'.2 ≤ kv.2 := by
  intro l
  induction l with
  | nil => intro kv h; simp [pymax] at h
  | cons a rest ih =>
      intro kv h kv' hm
      simp only [pymax] at h
      cases hr : pymax rest with
      | none =>
          rw [hr] at h
          simp at h
          have hrest : rest = [] := (pymax_eq_none_iff rest).1 hr
          subst hrest
          rcases List.mem_cons.1 hm with rfl | hm2
          · rw [h]
          · exact absurd hm2 (List.not_mem_nil kv')
      | some best =>
          rw [hr] at h
          by_cases hc : a.2 < best.2
          · simp [hc] at h
            rcases List.mem_cons.1 hm with rfl | hm2
            · rw [← h]
              exact hc.le
            · rw [← h]
              exact ih best hr kv' hm2
          · simp [hc] at h
            rcases List.mem_cons.1 hm with rfl | hm2
            · rw [h]
            · rw [← h]
              exact le_trans (ih best hr kv' hm2) (not_lt.1 hc)

/-- `pymax` picks the leftmost maximal entry: everything before it is
strictly smaller. -/
theorem pymax_leftmost {α : Type} :
    ∀ (l : List (α × ℕ)) (kv : α × ℕ), pymax l = some kv →
      ∃ l₁ l₂, l = l₁ ++ kv :: l₂ ∧ ∀ kv' ∈ l₁, kv'.2 < kv.2 := by
  intro l
  induction l with
  | nil => intro kv h; simp [pymax] at h
  | cons a rest ih =>
      intro kv h
      simp only [pymax] at h
      cases hr : pymax rest with
      | none =>
          rw [hr] at h
          simp at h
          exact ⟨[], rest, by rw [h]; simp, by simp⟩
      | some best =>
          rw [hr] at h
          by_cases hc : a.2 < best.2
          · simp [hc] at h
            obtain ⟨l₁, l₂, heq, hlt⟩ := ih best hr
            refine ⟨a :: l₁, l₂, by rw [heq, h]; simp, ?_⟩
            intro kv' hm
            rcases List.mem_cons.1 hm with rfl | hm2
            · rw [← h]
              exact hc
            · rw [← h]
              exact hlt kv' hm2
          · simp [hc] at h
            exact ⟨[], rest, by rw [h]; simp, by simp⟩

/-- With duplicate-free keys, every entry of a count dictionary holds the
looked-up value of its key. -/
theorem entry_lookup {α : Type} [DecidableEq α] :
    ∀ (l : List (α × ℕ)), (l.map Prod.fst).Nodup →
      ∀ kv ∈ l, lookupCount l kv.1 = kv.2 := by
  intro l
  induction l with
  | nil => intro _ kv h; exact absurd h (List.not_mem_nil kv)
  | cons a rest ih =>
      intro hnd kv hm
      rw [List.map_cons, List.nodup_cons] at hnd
      obtain ⟨k, v⟩ := a
      rcases List.mem_cons.1 hm with rfl | hm2
      · simp [lookupCount]
      · simp only [lookupCount]
        by_cases hk : k = kv.1
        · exfalso
          exact hnd.1 (hk ▸ List.mem_map.2 ⟨kv, hm2, rfl⟩)
        · rw [if_neg hk]
          exact ih hnd.2 kv hm2

/-- A key present in the key list has an entry, and with duplicate-free keys
that entry's value is the looked-up count. -/
theorem mem_keys_exists_entry {α : Type} [DecidableEq α] (l : List (α × ℕ)) (x : α)
    (hnd : (l.map Prod.fst).Nodup) (h : x ∈ l.map Prod.fst) :
    ∃ v, (x, v) ∈ l ∧ lookupCount l x = v := by
  obtain ⟨kv, hkv, hfst⟩ := List.mem_map.1 h
  refine ⟨kv.2, ?_, ?_⟩
  · rw [← hfst]
    exact hkv
  · rw [← hfst]
    exact entry_lookup l hnd kv hkv

/-- The count dictionary of a key sequence: duplicate-free keys, keys exactly
the elements of the sequence, and key order following first appearance. -/
theorem tally_spec {α : Type} [DecidableEq α] (ds : List α) :
    ((tally ds).map Prod.fst).Nodup ∧
    (∀ x, x ∈ (tally ds).map Prod.fst ↔ x ∈ ds) ∧
    List.Pairwise (fun a b => ds.indexOf a ≤ ds.indexOf b) ((tally ds).map Prod.fst) := by
  have hkeys : (tally ds).map Prod.fst = ds.foldl insKey [] := by
    rw [tally, tally_loop_keys]
    rfl
  refine ⟨?_, ?_, ?_⟩
  · rw [hkeys]
    exact insFold_nodup ds [] List.nodup_nil
  · intro x
    rw [hkeys, insFold_mem]
    simp
  · rw [hkeys]
    have hres := insFold_pairwise ds [] [] (fun k => Iff.rfl) List.Pairwise.nil
    simpa using hres

/-- A non-empty key sequence yields a non-failing `pymax` over its counts. -/
theorem pymax_tally_some {α : Type} [DecidableEq α] (ds : List α) (h : ds ≠ []) :
    ∃ kv, pymax (tally ds) = some kv := by
  cases hp : pymax (tally ds) with
  | some kv => exact ⟨kv, rfl⟩
  | none =>
      exfalso
      have htnil : tally ds = [] := (pymax_eq_none_iff _).1 hp
      obtain ⟨a, as, rfl⟩ := List.exists_cons_of_ne_nil h
      have hmem := (tally_spec (a :: as)).2.1 a
      rw [htnil] at hmem
      simp at hmem

/-- The winner chosen by `pymax` over a count dictionary: maximal count, and
among tied directions it has the earliest first appearance in the sequence. -/
theorem tally_winner_spec {α : Type} [DecidableEq α] (ds : List α) (kv : α × ℕ)
    (hkv : pymax (tally ds) = some kv) :
    (∀ d : α, ds.count d ≤ ds.count kv.1) ∧
    (∀ d : α, ds.count d = ds.count kv.1 → ds.indexOf kv.1 ≤ ds.indexOf d) := by
  obtain ⟨hnd, hmem, hpair⟩ := tally_spec ds
  have hkvmem : kv ∈ tally ds := by
    obtain ⟨l₁, l₂, heq, _⟩ := pymax_leftmost _ kv hkv
    rw [heq]
    exact List.mem_append.2 (Or.inr (List.mem_cons_self _ _))
  have hkv2 : kv.2 = ds.count kv.1 := by
    rw [← entry_lookup (tally ds) hnd kv hkvmem, tally_lookup]
  constructor
  · intro d
    by_cases hdmem : d ∈ ds
    · obtain ⟨v, hvmem, hvlook⟩ := mem_keys_exists_entry _ _ hnd ((hmem d).2 hdmem)
      have hv : v = ds.count d := by rw [← hvlook, tally_lookup]
      have hle := pymax_is_max _ kv hkv (d, v) hvmem
      simp only at hle
      omega
    · rw [List.count_eq_zero.2 hdmem]
      exact Nat.zero_le _
  · intro d hcount
    by_cases hdw : d = kv.1
    · rw [hdw]
    · have hwkey : kv.1 ∈ (tally ds).map Prod.fst := List.mem_map.2 ⟨kv, hkvmem, rfl⟩
      have hwmem : kv.1 ∈ ds := (hmem _).1 hwkey
      have hcpos : 0 < ds.count kv.1 := List.count_pos_iff.2 hwmem
      have hdmem : d ∈ ds := by
        by_contra hnd2
        rw [List.count_eq_zero.2 hnd2] at hcount
        omega
      obtain ⟨l₁, l₂, hsplit, hless⟩ := pymax_leftmost _ kv hkv
      obtain ⟨v, hvmem, hvlook⟩ := mem_keys_exists_entry _ _ hnd ((hmem d).2 hdmem)
      have hv : v = ds.count d := by rw [← hvlook, tally_lookup]
      rw [hsplit] at hvmem
      rcases List.mem_append.1 hvmem with h1 | h2
      · have hvlt := hless _ h1
        simp only at hvlt
        omega
      · rcases List.mem_cons.1 h2 with heqkv | h3
        · exact absurd (congrArg Prod.fst heqkv) hdw
        · have hkeq : (tally ds).map Prod.fst =
              l₁.map Prod.fst ++ kv.1 :: l₂.map Prod.fst := by
            rw [hsplit]
            simp
          rw [hkeq] at hpair
          have hpp := (List.pairwise_append.1 hpair).2.1
          rw [List.pairwise_cons] at hpp
          exact hpp.1 d (List.mem_map.2 ⟨(d, v), h3, rfl⟩)

/-- A prediction record whose direction is bearish (all other fields inert). -/
def recBearish : Record := ⟨0, "", 0, "", .Ketu, 0, .Ketu, .Ketu, 0, 0, 0, .bearish, 0, []⟩

/-- A prediction record whose direction is bullish (all other fields inert). -/
def recBullish : Record := ⟨0, "", 0, "", .Ketu, 0, .Ketu, .Ketu, 0, 0, 0, .bullish, 0, []⟩

/-- C2 counterexample: on the two-record sequence `[bearish, bullish]` the
direction counts tie at one each, yet the session outcome is `bearish` — the
first direction to appear in the records — not `bullish`, the first of the
fixed enumeration `[bullish, bearish, neutral, uncertain]`. -/
theorem C2_counterexample :
    (predict_session_outcome [recBearish, recBullish]).map SessionOutcome.overall_direction =
      some .bearish ∧
    ([recBearish, recBullish].map Record.predicted_direction).count Direction.bullish =
      ([recBearish, recBullish].map Record.predicted_direction).count Direction.bearish ∧
    Direction.bearish ≠ Direction.bullish := by
  refine ⟨?_, by simp [recBearish, recBullish], by simp⟩
  norm_num [predict_session_outcome, tally, bump, pymax, lookupCount, recBearish, recBullish,
    get_session_character, capitalizeDirection]

/-- C2 (amended): for every non-empty record sequence the session outcome's
overall direction attains the maximum count over all records, and ties are
broken by order of first appearance in the record sequence (Python dict
insertion order), not by the fixed enumeration order. -/
theorem C2_majority_first_appearance (records : List Record) (h : records ≠ []) :
    ∃ o, predict_session_outcome records = some o ∧
      (∀ d : Direction, (records.map Record.predicted_direction).count d ≤
        (records.map Record.predicted_direction).count o.overall_direction) ∧
      (∀ d : Direction,
        (records.map Record.predicted_direction).count d =
          (records.map Record.predicted_direction).count o.overall_direction →
        (records.map Record.predicted_direction).indexOf o.overall_direction ≤
          (records.map Record.predicted_direction).indexOf d) := by
  obtain ⟨a, as, rfl⟩ := List.exists_cons_of_ne_nil h
  obtain ⟨kv, hkv⟩ :=
    pymax_tally_some ((a :: as).map Record.predicted_direction) (by simp)
  have hspec := tally_winner_spec _ kv hkv
  simp only [predict_session_outcome]
  rw [hkv]
  exact ⟨_, rfl, hspec.1, hspec.2⟩

/-- Witness for the amended C2 on the concrete two-record sequence. -/
theorem C2_majority_first_appearance_witness :
    ∃ o, predict_session_outcome [recBearish, recBullish] = some o ∧
      (∀ d : Direction, ([recBearish, recBullish].map Record.predicted_direction).count d ≤
        ([recBearish, recBullish].map Record.predicted_direction).count o.overall_direction) ∧
      (∀ d : Direction,
        ([recBearish, recBullish].map Record.predicted_direction).count d =
          ([recBearish, recBullish].map Record.predicted_direction).count o.overall_direction →
        ([recBearish, recBullish].map Record.predicted_direction).indexOf o.overall_direction ≤
          ([recBearish, recBullish].map Record.predicted_direction).indexOf d) :=
  C2_majority_first_appearance [recBearish, recBullish] (by simp)
